import Mathlib

set_option maxRecDepth 10000

/-!
Verification of the encrypted bulk-storage engine of this repository.

The development shallowly embeds the relevant parts of
`src/packages/bulk-storage/bulk.js`, `src/packages/bulk-storage/filerecord.js`
and `src/packages/bulk-storage/io.js`:

* byte buffers are `List Nat` (each entry one byte value);
* `Buffer` writes at offsets (`set`, `writeBigInt64LE`, `fill`) are explicit
  list surgery on a buffer that starts as uninitialized garbage
  (`Buffer.allocUnsafe`), the garbage being a parameter;
* the file is a `List Nat`; `fs.ftruncateSync`, positional writes and
  `fs.createReadStream` ranges are explicit list operations;
* AES-256-CBC is CBC mode over an abstract 16-byte block cipher (the block
  primitive itself is OpenSSL code, not code of this repository), with PKCS#7
  padding made explicit; randomness (`crypto.randomBytes`,
  `crypto.randomUUID`, `crypto.randomFillSync`) and the RSA envelope of the
  header are parameters of the operations that consume them;
* fallible operations return `Except`/`Option`; JavaScript `throw` sites
  become `.error` values.
-/

namespace BulkSpec

/-- Error kinds raised by the engine: `StorageClosed`, `InvalidRecord` and
`WriteAborted` throw sites in the source. -/
inductive Err where
  | storageClosed
  | invalidRecord
  | writeAborted
deriving DecidableEq, Repr

instance {ε α : Type} [DecidableEq ε] [DecidableEq α] :
    DecidableEq (Except ε α) := fun
  | .ok a, .ok b =>
    match decEq a b with
    | .isTrue h => .isTrue (by rw [h])
    | .isFalse h => .isFalse (fun hc => h (by cases hc; rfl))
  | .ok _, .error _ => .isFalse (fun hc => Except.noConfusion hc)
  | .error _, .ok _ => .isFalse (fun hc => Except.noConfusion hc)
  | .error e, .error f =>
    match decEq e f with
    | .isTrue h => .isTrue (by rw [h])
    | .isFalse h => .isFalse (fun hc => h (by cases hc; rfl))

/-- Little-endian decoding of a byte list (low byte first), as
`Buffer.readUIntLE`-style reads do. -/
def leDecode (bs : List Nat) : Nat :=
  bs.foldr (fun b acc => b + 256 * acc) 0

/-- Little-endian encoding of `n` into `w` bytes, low byte first. -/
def natToLE (w n : Nat) : List Nat :=
  match w with
  | 0 => []
  | Nat.succ w => n % 256 :: natToLE w (n / 256)

theorem length_natToLE (w n : Nat) : (natToLE w n).length = w := by
  induction w generalizing n with
  | zero => rfl
  | succ w ih => simp [natToLE, ih]

theorem leDecode_natToLE (w n : Nat) (h : n < 256 ^ w) :
    leDecode (natToLE w n) = n := by
  induction w generalizing n with
  | zero =>
    have : n = 0 := by simpa using h
    simp [this, natToLE, leDecode]
  | succ w ih =>
    have hdiv : n / 256 < 256 ^ w := by
      rw [Nat.div_lt_iff_lt_mul (by norm_num)]
      calc n < 256 ^ (w + 1) := h
        _ = 256 ^ w * 256 := by ring
    have := ih (n / 256) hdiv
    simp only [natToLE, leDecode, List.foldr_cons] at *
    rw [this]
    omega

/-- Model of `Buffer.writeBigInt64LE`: the value is written as its 64-bit
two's complement image, low byte first. -/
def encBigInt64LE (v : Int) : List Nat :=
  natToLE 8 (v % (2 : Int) ^ 64).toNat

/-- Model of `Buffer.readBigInt64LE`: read 8 bytes little-endian and
reinterpret as a signed 64-bit value. -/
def decBigInt64LE (bs : List Nat) : Int :=
  let u := leDecode bs
  if u < 2 ^ 63 then (u : Int) else (u : Int) - 2 ^ 64

theorem length_encBigInt64LE (v : Int) : (encBigInt64LE v).length = 8 :=
  length_natToLE 8 _

theorem decBigInt64LE_encBigInt64LE (v : Int)
    (h1 : -(2 ^ 63) ≤ v) (h2 : v < 2 ^ 63) :
    decBigInt64LE (encBigInt64LE v) = v := by
  have hmod : v % (2 : Int) ^ 64 = if 0 ≤ v then v else v + 2 ^ 64 := by
    split <;> omega
  have hlt : (v % (2 : Int) ^ 64).toNat < 256 ^ 8 := by
    rw [hmod]; split <;> [omega; omega]
  unfold decBigInt64LE encBigInt64LE
  rw [leDecode_natToLE 8 _ hlt]
  rw [hmod] at *
  split at hmod <;> simp only [hmod] <;> split <;> omega

/-- Model of `Buffer.writeUInt16LE`. -/
def encUInt16LE (n : Nat) : List Nat := natToLE 2 n

theorem length_encUInt16LE (n : Nat) : (encUInt16LE n).length = 2 :=
  length_natToLE 2 _

theorem leDecode_encUInt16LE (n : Nat) (h : n < 2 ^ 16) :
    leDecode (encUInt16LE n) = n :=
  leDecode_natToLE 2 n (by omega)

/-- Model of `Buffer.prototype.set(data, off)`: overwrite `data` into the
buffer starting at `off`. -/
def bufSet (buf data : List Nat) (off : Nat) : List Nat :=
  buf.take off ++ data ++ buf.drop (off + data.length)

/-- Model of `Buffer.prototype.fill(0, off)`: zero bytes from `off` to the
end of the buffer. -/
def bufFill0 (buf : List Nat) (off : Nat) : List Nat :=
  buf.take off ++ List.replicate (buf.length - off) 0

/-- Model of `Buffer.prototype.subarray(i, j)`: the bytes in `[i, j)`. -/
def subarray (buf : List Nat) (i j : Nat) : List Nat :=
  (buf.drop i).take (j - i)

theorem bufSet_length (buf d : List Nat) (off : Nat)
    (h : off + d.length ≤ buf.length) :
    (bufSet buf d off).length = buf.length := by
  simp [bufSet]; omega

/-- Writing at the exact end of an already-written prefix replaces the
corresponding bytes of the remainder. -/
theorem bufSet_append (A B d : List Nat) (off : Nat) (hA : A.length = off) :
    bufSet (A ++ B) d off = A ++ d ++ B.drop d.length := by
  unfold bufSet
  rw [List.take_left' hA]
  have : off + d.length = A.length + d.length := by omega
  rw [this, ← List.drop_drop, List.drop_left]

theorem subarray_append (A B : List Nat) (i j : Nat) (hA : A.length = i) :
    subarray (A ++ B) i j = B.take (j - i) := by
  unfold subarray
  rw [List.drop_left' hA]

/-- A `subarray` entirely below `n` only depends on the first `n` bytes. -/
theorem subarray_eq_of_take_eq (b1 b2 : List Nat) (n i j : Nat)
    (h : b1.take n = b2.take n) (hj : j ≤ n) :
    subarray b1 i j = subarray b2 i j := by
  unfold subarray
  by_cases hij : i ≤ j
  · have key : ∀ b : List Nat, (b.drop i).take (j - i) = ((b.take n).take j).drop i := by
      intro b
      rw [List.take_take, Nat.min_eq_left hj, List.drop_take]
    rw [key b1, key b2, h]
  · have : j - i = 0 := by omega
    simp [this]

/-- Model of `fs.ftruncateSync(fd, n)`: shrink the file to `n` bytes, or
zero-extend it when it is shorter than `n`. -/
def ftruncate (file : List Nat) (n : Nat) : List Nat :=
  file.take n ++ List.replicate (n - file.length) 0

/-- Model of a positional write (`fs.writeSync` with a position, or a
`fs.createWriteStream` with `start`): overwrite `data` at `pos`,
zero-extending a shorter file first. -/
def writeAt (file : List Nat) (pos : Nat) (data : List Nat) : List Nat :=
  (file.take pos ++ List.replicate (pos - file.length) 0) ++ data ++
    file.drop (pos + data.length)

theorem length_ftruncate (f : List Nat) (n : Nat) :
    (ftruncate f n).length = n := by
  simp [ftruncate]; omega

theorem ftruncate_eq_self (f : List Nat) (n : Nat) (h : n = f.length) :
    ftruncate f n = f := by
  simp [ftruncate, h]

theorem ftruncate_append (f d : List Nat) :
    ftruncate (f ++ d) f.length = f := by
  simp [ftruncate, List.take_left]

theorem writeAt_prefix_length (f : List Nat) (pos : Nat) :
    (f.take pos ++ List.replicate (pos - f.length) 0).length = pos := by
  simp; omega

theorem writeAt_drop (f : List Nat) (pos : Nat) (d : List Nat) :
    (writeAt f pos d).drop pos = d ++ f.drop (pos + d.length) := by
  unfold writeAt
  rw [List.append_assoc, List.drop_left' (writeAt_prefix_length f pos)]

theorem writeAt_append (f d : List Nat) (pos : Nat) (h : pos = f.length) :
    writeAt f pos d = f ++ d := by
  subst h
  simp [writeAt, List.drop_eq_nil_of_le]

/-- Truncating back to `pos` undoes a write performed at `pos`. -/
theorem ftruncate_writeAt (f : List Nat) (pos : Nat) (d : List Nat) :
    ftruncate (writeAt f pos d) pos = ftruncate f pos := by
  unfold ftruncate writeAt
  rw [List.append_assoc,
    List.take_left' (writeAt_prefix_length f pos)]
  have hlen : ((f.take pos ++ List.replicate (pos - f.length) 0) ++
      (d ++ f.drop (pos + d.length))).length = pos + (d ++ f.drop (pos + d.length)).length := by
    simp; omega
  rw [hlen]
  simp [ftruncate]

/-- Byte-wise XOR of two blocks, as CBC chaining uses it. -/
def xorBytes (a b : List Nat) : List Nat :=
  List.zipWith (fun x y => x ^^^ y) a b

theorem length_xorBytes (a b : List Nat) :
    (xorBytes a b).length = min a.length b.length := by
  simp [xorBytes]

theorem xorBytes_cancel (a b : List Nat) (h : a.length ≤ b.length) :
    xorBytes (xorBytes a b) b = a := by
  induction a generalizing b with
  | nil => simp [xorBytes]
  | cons x xs ih =>
    cases b with
    | nil => simp at h
    | cons y ys =>
      simp only [xorBytes, List.zipWith_cons_cons]
      rw [Nat.xor_cancel_right]
      have := ih ys (by simpa using h)
      simp only [xorBytes] at this
      simp [this]

/-- The 16-byte block primitive of AES-256: OpenSSL code, not code of this
repository, so it is abstracted to an arbitrary keyed, length-preserving,
invertible block transformation. CBC chaining, padding and all key/IV
plumbing stay concrete. -/
structure BlockCipher where
  enc : List Nat → List Nat → List Nat
  dec : List Nat → List Nat → List Nat
  length_enc : ∀ k b, (enc k b).length = b.length
  dec_enc : ∀ k b, dec k (enc k b) = b

/-- Concrete key-sensitive block cipher used to run the model on explicit
inputs: XOR every byte with a byte derived from the key. -/
def toyCipher : BlockCipher where
  enc := fun k b => b.map (fun x => x ^^^ (leDecode k % 256))
  dec := fun k b => b.map (fun x => x ^^^ (leDecode k % 256))
  length_enc := by intro k b; simp
  dec_enc := by
    intro k b
    induction b with
    | nil => rfl
    | cons x xs ih =>
      dsimp only [List.map_cons] at *
      simp_all [Nat.xor_cancel_right]

/-- Fuel-driven worker for 16-byte chunking (structural recursion, so that
the model evaluates by kernel reduction on concrete inputs). -/
def chunksGo : Nat → List Nat → List (List Nat)
  | 0, _ => []
  | Nat.succ fuel, l =>
    if l = [] then [] else l.take 16 :: chunksGo fuel (l.drop 16)

/-- Split a byte list into consecutive 16-byte blocks (the last block may be
shorter when the length is not a multiple of 16). -/
def chunksOf16 (l : List Nat) : List (List Nat) :=
  chunksGo l.length l

theorem chunksGo_flatten (fuel : Nat) (l : List Nat) (h : l.length ≤ fuel) :
    (chunksGo fuel l).flatten = l := by
  induction fuel generalizing l with
  | zero =>
    have : l = [] := by
      cases l with
      | nil => rfl
      | cons x xs => simp at h
    simp [this, chunksGo]
  | succ fuel ih =>
    by_cases hl : l = []
    · simp [hl, chunksGo]
    · rw [chunksGo]
      simp only [hl, if_false, List.flatten_cons]
      rw [ih (l.drop 16) (by simp [List.length_drop]; omega)]
      exact List.take_append_drop 16 l

theorem chunksOf16_flatten (l : List Nat) : (chunksOf16 l).flatten = l :=
  chunksGo_flatten l.length l le_rfl

theorem chunksGo_blocks_length (fuel : Nat) (l : List Nat)
    (h : l.length ≤ fuel) (hm : l.length % 16 = 0) :
    ∀ b ∈ chunksGo fuel l, b.length = 16 := by
  induction fuel generalizing l with
  | zero => simp [chunksGo]
  | succ fuel ih =>
    by_cases hl : l = []
    · simp [hl, chunksGo]
    · rw [chunksGo]
      simp only [hl, if_false]
      intro b hb
      have hpos : 0 < l.length := List.length_pos.mpr hl
      have h16 : 16 ≤ l.length := by omega
      rcases List.mem_cons.mp hb with hb | hb
      · subst hb; simp [List.length_take]; omega
      · exact ih (l.drop 16)
          (by simp [List.length_drop]; omega)
          (by simp [List.length_drop]; omega) b hb

theorem chunksOf16_blocks_length (l : List Nat) (hm : l.length % 16 = 0) :
    ∀ b ∈ chunksOf16 l, b.length = 16 :=
  chunksGo_blocks_length l.length l le_rfl hm

theorem chunksGo_of_flatten (bs : List (List Nat)) (fuel : Nat)
    (h : ∀ b ∈ bs, b.length = 16) (hf : bs.flatten.length ≤ fuel) :
    chunksGo fuel bs.flatten = bs := by
  induction bs generalizing fuel with
  | nil =>
    cases fuel with
    | zero => rfl
    | succ fuel => simp [chunksGo]
  | cons b bs ih =>
    have hb : b.length = 16 := h b (by simp)
    have hbne : b ++ bs.flatten ≠ [] := by
      intro hcon
      have : b = [] := by
        cases b with
        | nil => rfl
        | cons x xs => simp at hcon
      rw [this] at hb; simp at hb
    have hlen : (b ++ bs.flatten).length = 16 + bs.flatten.length := by
      simp [hb]
    cases fuel with
    | zero =>
      rw [List.flatten_cons, hlen] at hf
      omega
    | succ fuel =>
      rw [List.flatten_cons, chunksGo]
      simp only [hbne, if_false]
      rw [List.take_left' hb, List.drop_left' hb]
      rw [ih fuel (fun x hx => h x (by simp [hx]))
        (by rw [List.flatten_cons, hlen] at hf; omega)]

theorem chunksOf16_of_flatten (bs : List (List Nat))
    (h : ∀ b ∈ bs, b.length = 16) :
    chunksOf16 bs.flatten = bs :=
  chunksGo_of_flatten bs _ h le_rfl

/-- CBC encryption over a block list: each ciphertext block is the encryption
of the plaintext block XORed with the previous ciphertext block (the IV for
the first block). -/
def cbcEncBlocks (C : BlockCipher) (key : List Nat) :
    List Nat → List (List Nat) → List (List Nat)
  | _, [] => []
  | prev, b :: bs =>
    let c := C.enc key (xorBytes b prev)
    c :: cbcEncBlocks C key c bs

/-- CBC decryption over a block list. -/
def cbcDecBlocks (C : BlockCipher) (key : List Nat) :
    List Nat → List (List Nat) → List (List Nat)
  | _, [] => []
  | prev, c :: cs =>
    xorBytes (C.dec key c) prev :: cbcDecBlocks C key c cs

theorem cbcEncBlocks_blocks_length (C : BlockCipher) (key : List Nat)
    (prev : List Nat) (bs : List (List Nat)) (hp : prev.length = 16)
    (hb : ∀ b ∈ bs, b.length = 16) :
    ∀ c ∈ cbcEncBlocks C key prev bs, c.length = 16 := by
  induction bs generalizing prev with
  | nil => simp [cbcEncBlocks]
  | cons b bs ih =>
    intro c hc
    have hblen : b.length = 16 := hb b (by simp)
    have hclen : (C.enc key (xorBytes b prev)).length = 16 := by
      rw [C.length_enc, length_xorBytes, hblen, hp]; simp
    simp only [cbcEncBlocks, List.mem_cons] at hc
    rcases hc with hc | hc
    · rw [hc]; exact hclen
    · exact ih _ hclen (fun x hx => hb x (by simp [hx])) c hc

theorem cbcDecBlocks_cbcEncBlocks (C : BlockCipher) (key : List Nat)
    (prev : List Nat) (bs : List (List Nat)) (hp : prev.length = 16)
    (hb : ∀ b ∈ bs, b.length = 16) :
    cbcDecBlocks C key prev (cbcEncBlocks C key prev bs) = bs := by
  induction bs generalizing prev with
  | nil => simp [cbcEncBlocks, cbcDecBlocks]
  | cons b bs ih =>
    have hblen : b.length = 16 := hb b (by simp)
    simp only [cbcEncBlocks, cbcDecBlocks]
    rw [C.dec_enc, xorBytes_cancel b prev (by omega)]
    have hclen : (C.enc key (xorBytes b prev)).length = 16 := by
      rw [C.length_enc, length_xorBytes, hblen, hp]; simp
    rw [ih _ hclen (fun x hx => hb x (by simp [hx]))]

/-- PKCS#7 padding to a 16-byte multiple, as OpenSSL applies on
`cipher.final()`: always at least one byte of padding. -/
def pkcs7pad (P : List Nat) : List Nat :=
  let padLen := 16 - P.length % 16
  P ++ List.replicate padLen padLen

/-- PKCS#7 unpadding, as OpenSSL checks on `decipher.final()`; `none` models
the "bad decrypt" error. -/
def pkcs7unpad (X : List Nat) : Option (List Nat) :=
  match X.getLast? with
  | none => none
  | some k =>
    if 1 ≤ k ∧ k ≤ 16 ∧ k ≤ X.length ∧ ∀ b ∈ X.drop (X.length - k), b = k
    then some (X.take (X.length - k))
    else none

theorem pkcs7pad_length_mod (P : List Nat) : (pkcs7pad P).length % 16 = 0 := by
  simp [pkcs7pad]; omega

theorem pkcs7pad_length_pos (P : List Nat) : 0 < (pkcs7pad P).length := by
  simp [pkcs7pad]; omega

theorem getLast?_replicate_succ (n : Nat) (a : Nat) :
    (List.replicate (n + 1) a).getLast? = some a := by
  induction n with
  | zero => rfl
  | succ n ih =>
    rw [List.replicate_succ]
    rw [List.getLast?_cons]
    rw [List.replicate_succ] at ih ⊢
    simp_all [List.getLast?_cons]

theorem pkcs7unpad_pkcs7pad (P : List Nat) :
    pkcs7unpad (pkcs7pad P) = some P := by
  have hpl : 1 ≤ 16 - P.length % 16 ∧ 16 - P.length % 16 ≤ 16 := by omega
  set padLen := 16 - P.length % 16 with hpad
  have hrep : List.replicate padLen padLen ≠ [] := by
    have : 0 < padLen := hpl.1
    cases hr : List.replicate padLen padLen with
    | nil =>
      have := List.length_replicate padLen padLen
      rw [hr] at this; simp at this; omega
    | cons x xs => simp
  have hlast : (pkcs7pad P).getLast? = some padLen := by
    unfold pkcs7pad
    rw [List.getLast?_append]
    rcases Nat.exists_eq_add_of_le hpl.1 with ⟨m, hm⟩
    have : padLen = m + 1 := by omega
    rw [← hpad, this, getLast?_replicate_succ]
    rfl
  unfold pkcs7unpad
  rw [hlast]
  dsimp only
  have hlen : (pkcs7pad P).length = P.length + padLen := by
    simp [pkcs7pad]
  have hdrop : (pkcs7pad P).drop ((pkcs7pad P).length - padLen) =
      List.replicate padLen padLen := by
    rw [hlen]
    have : P.length + padLen - padLen = P.length := by omega
    rw [this]
    exact List.drop_left' rfl
  have htake : (pkcs7pad P).take ((pkcs7pad P).length - padLen) = P := by
    rw [hlen]
    have : P.length + padLen - padLen = P.length := by omega
    rw [this]
    exact List.take_left' rfl
  rw [if_pos]
  · rw [htake]
  · refine ⟨hpl.1, hpl.2, by omega, ?_⟩
    intro b hb
    rw [hdrop] at hb
    exact List.eq_of_mem_replicate hb

/-- AES-256-CBC encryption of a whole byte stream, as
`crypto.createCipheriv(..., key, iv)` followed by `update`/`final` produces
it: PKCS#7-pad, then CBC-chain starting from the IV. -/
def cbcEncrypt (C : BlockCipher) (key iv P : List Nat) : List Nat :=
  (cbcEncBlocks C key iv (chunksOf16 (pkcs7pad P))).flatten

/-- AES-256-CBC decryption, as `crypto.createDecipheriv` with `update`/`final`
behaves: `none` when the input is not a non-empty multiple of the block size
(`wrong final block length`) or the padding check fails (`bad decrypt`). -/
def cbcDecrypt (C : BlockCipher) (key iv X : List Nat) : Option (List Nat) :=
  if X.length % 16 = 0 ∧ X ≠ [] then
    pkcs7unpad (cbcDecBlocks C key iv (chunksOf16 X)).flatten
  else none

theorem length_flatten_blocks (bs : List (List Nat))
    (h : ∀ b ∈ bs, b.length = 16) : bs.flatten.length = 16 * bs.length := by
  induction bs with
  | nil => simp
  | cons b bs ih =>
    rw [List.flatten_cons]
    simp only [List.length_append, List.length_cons]
    rw [h b (by simp), ih (fun x hx => h x (by simp [hx]))]
    ring

theorem cbcEncrypt_length_mod (C : BlockCipher) (key iv P : List Nat)
    (hiv : iv.length = 16) : (cbcEncrypt C key iv P).length % 16 = 0 := by
  unfold cbcEncrypt
  rw [length_flatten_blocks _ (cbcEncBlocks_blocks_length C key iv _ hiv
    (chunksOf16_blocks_length _ (pkcs7pad_length_mod P)))]
  omega

theorem cbcEncrypt_ne_nil (C : BlockCipher) (key iv P : List Nat)
    (hiv : iv.length = 16) : cbcEncrypt C key iv P ≠ [] := by
  unfold cbcEncrypt
  intro hcon
  have hne : pkcs7pad P ≠ [] := List.length_pos.mp (pkcs7pad_length_pos P)
  have hchne : chunksOf16 (pkcs7pad P) ≠ [] := by
    unfold chunksOf16
    cases hlp : (pkcs7pad P).length with
    | zero =>
      have := pkcs7pad_length_pos P
      omega
    | succ n =>
      rw [chunksGo]
      simp [hne]
  cases hch : chunksOf16 (pkcs7pad P) with
  | nil => exact hchne hch
  | cons b bs =>
    rw [hch] at hcon
    simp only [cbcEncBlocks, List.flatten_cons] at hcon
    have hb : b.length = 16 :=
      chunksOf16_blocks_length _ (pkcs7pad_length_mod P) b (by rw [hch]; simp)
    have : (C.enc key (xorBytes b iv)).length = 16 := by
      rw [C.length_enc, length_xorBytes, hb, hiv]; simp
    have h2 := List.append_eq_nil.mp hcon
    rw [h2.1] at this
    simp at this

/-- Round trip of the symmetric cipher: decrypting an encryption with the
same key and IV recovers the plaintext. -/
theorem cbcDecrypt_cbcEncrypt (C : BlockCipher) (key iv P : List Nat)
    (hiv : iv.length = 16) :
    cbcDecrypt C key iv (cbcEncrypt C key iv P) = some P := by
  unfold cbcDecrypt
  rw [if_pos ⟨cbcEncrypt_length_mod C key iv P hiv, cbcEncrypt_ne_nil C key iv P hiv⟩]
  have hblocks : ∀ b ∈ chunksOf16 (pkcs7pad P), b.length = 16 :=
    chunksOf16_blocks_length _ (pkcs7pad_length_mod P)
  have hencblocks := cbcEncBlocks_blocks_length C key iv _ hiv hblocks
  unfold cbcEncrypt
  rw [chunksOf16_of_flatten _ hencblocks]
  rw [cbcDecBlocks_cbcEncBlocks C key iv _ hiv hblocks]
  rw [chunksOf16_flatten]
  exact pkcs7unpad_pkcs7pad P

namespace Filerecord

/-!
Embedding of `src/packages/bulk-storage/filerecord.js`: the canonical
256-byte `FileRecord` with per-record key and plaintext checksums.
-/

/-- The 256-byte record of `filerecord.js` (`end` is a Lean keyword, so the
field is named `endPos`). `ctime` is the epoch-millisecond value of the
`Date`; `flags` is the 16-bit value of the `RecordFlags`. -/
structure FileRecord where
  uuid : List Nat
  start : Int
  endPos : Int
  key : List Nat
  iv : List Nat
  crc : List Nat
  md5 : List Nat
  sha : List Nat
  ctime : Int
  flags : Nat
deriving DecidableEq, Repr

/-- The `FileRecord` constructor together with its validation: it throws
`InvalidRecord` when `start >= end` or the IV buffer is shorter than
16 bytes. -/
def FileRecord.make (uuid : List Nat) (start endPos : Int)
    (key iv crc md5 sha : List Nat) (ctime : Int) (flags : Nat) :
    Except Err FileRecord :=
  if endPos ≤ start then .error .invalidRecord
  else if iv.length < 16 then .error .invalidRecord
  else .ok ⟨uuid, start, endPos, key, iv, crc, md5, sha, ctime, flags⟩

/-- Field lengths of a record as `filerecord.js` produces them (UUIDs are
16 bytes, keys come from `randomBytes(32)`, and so on). -/
def FileRecord.WF (r : FileRecord) : Prop :=
  r.uuid.length = 16 ∧ r.key.length = 32 ∧ r.iv.length = 16 ∧
    r.crc.length = 4 ∧ r.md5.length = 16 ∧ r.sha.length = 32

instance (r : FileRecord) : Decidable r.WF := by
  unfold FileRecord.WF; infer_instance

/-- `FileRecord.prototype.toBinary` of `filerecord.js`: write all fields at
their offsets into a 256-byte `Buffer.allocUnsafe` buffer (`junk` is its
uninitialized content), then zero-fill the reserved bytes from offset 142. -/
def FileRecord.toBinary (junk : List Nat) (r : FileRecord) : List Nat :=
  let b0 := bufSet junk r.uuid 0
  let b1 := bufSet b0 (encBigInt64LE r.start) 16
  let b2 := bufSet b1 (encBigInt64LE r.endPos) 24
  let b3 := bufSet b2 r.key 32
  let b4 := bufSet b3 r.iv 64
  let b5 := bufSet b4 r.crc 80
  let b6 := bufSet b5 r.md5 84
  let b7 := bufSet b6 r.sha 100
  let b8 := bufSet b7 (encBigInt64LE r.ctime) 132
  let b9 := bufSet b8 (encUInt16LE r.flags) 140
  bufFill0 b9 142

/-- `FileRecord.from` of `filerecord.js`: slice every declared field at its
offset and run the constructor (which revalidates `start < end` and the IV
length). -/
def FileRecord.fromBinary (buf : List Nat) : Except Err FileRecord :=
  FileRecord.make (subarray buf 0 16)
    (decBigInt64LE (subarray buf 16 24))
    (decBigInt64LE (subarray buf 24 32))
    (subarray buf 32 64)
    (subarray buf 64 80)
    (subarray buf 80 84)
    (subarray buf 84 100)
    (subarray buf 100 132)
    (decBigInt64LE (subarray buf 132 140))
    (leDecode (subarray buf 140 142))

/-- The optional fields of `FileRecord.create(options)`. -/
structure CreateOptions where
  start : Option Int := none
  endPos : Option Int := none
  crc : Option (List Nat) := none
  md5 : Option (List Nat) := none
  sha : Option (List Nat) := none
deriving DecidableEq, Repr

/-- `FileRecord.create` of `filerecord.js`: fill defaults (`start` defaults
to 0, `end` to `start + 1n`, checksums to zero buffers, flags to none) and
call the constructor. The generated UUID, the 32-byte key, the 16-byte IV
(all from `crypto`) and the current time are parameters. -/
def FileRecord.create (options : Option CreateOptions)
    (uuid key iv : List Nat) (ctime : Int) : Except Err FileRecord :=
  let opts := options.getD {}
  let start := opts.start.getD 0
  let endPos := opts.endPos.getD (start + 1)
  FileRecord.make uuid start endPos key iv
    (opts.crc.getD (List.replicate 4 0))
    (opts.md5.getD (List.replicate 16 0))
    (opts.sha.getD (List.replicate 32 0))
    ctime 0

end Filerecord

namespace Bulk

/-!
Embedding of `src/packages/bulk-storage/bulk.js`: the 128-byte `FileRecord`
actually used by `BulkStorage`, the `Header`, the `TableOfContents` codec and
the storage controller itself.
-/

/-- `RecordFlags.prototype.isDeleted`: bit 1 (`FlagState.DELETED = 2`). -/
def RecordFlags.isDeleted (f : Nat) : Bool := (f &&& 2) != 0

/-- `RecordFlags.prototype.toggleDeleted`: XOR with `FlagState.DELETED`. -/
def RecordFlags.toggleDeleted (f : Nat) : Nat := f ^^^ 2

theorem RecordFlags.isDeleted_toggleDeleted (f : Nat)
    (h : RecordFlags.isDeleted f = false) :
    RecordFlags.isDeleted (RecordFlags.toggleDeleted f) = true := by
  have h0 : f &&& 2 = 0 := by
    unfold RecordFlags.isDeleted at h
    simpa using h
  unfold RecordFlags.isDeleted RecordFlags.toggleDeleted
  rw [Nat.and_xor_distrib_right, h0]
  decide

/-- The 128-byte record defined inside `bulk.js` (uuid, start, end, iv,
flags; no per-record key, no checksums). -/
structure FileRecord where
  uuid : List Nat
  start : Int
  endPos : Int
  iv : List Nat
  flags : Nat
deriving DecidableEq, Repr

/-- The `bulk.js` `FileRecord` constructor with its validation. -/
def FileRecord.make (uuid : List Nat) (start endPos : Int) (iv : List Nat)
    (flags : Nat) : Except Err FileRecord :=
  if endPos ≤ start then .error .invalidRecord
  else if iv.length < 16 then .error .invalidRecord
  else .ok ⟨uuid, start, endPos, iv, flags⟩

/-- `FileRecord.prototype.toBinary` of `bulk.js`: write uuid/start/end/iv/
flags at their offsets into a 128-byte `Buffer.allocUnsafe` buffer (`junk`),
then fill everything from offset 50 with `crypto.randomFillSync` (`pad` is
that random content). -/
def FileRecord.toBinary (junk pad : List Nat) (r : FileRecord) : List Nat :=
  let b0 := bufSet junk r.uuid 0
  let b1 := bufSet b0 (encBigInt64LE r.start) 16
  let b2 := bufSet b1 (encBigInt64LE r.endPos) 24
  let b3 := bufSet b2 r.iv 32
  let b4 := bufSet b3 (encUInt16LE r.flags) 48
  b4.take 50 ++ pad

/-- `FileRecord.from` of `bulk.js`: slice the five declared fields and run
the constructor; bytes from offset 50 on are never read. -/
def FileRecord.fromBinary (buf : List Nat) : Except Err FileRecord :=
  FileRecord.make (subarray buf 0 16)
    (decBigInt64LE (subarray buf 16 24))
    (decBigInt64LE (subarray buf 24 32))
    (subarray buf 32 48)
    (leDecode (subarray buf 48 50))

/-- Field lengths of a `bulk.js` record as `add` produces them. -/
def FileRecord.WF (r : FileRecord) : Prop :=
  r.uuid.length = 16 ∧ r.iv.length = 16

instance (r : FileRecord) : Decidable r.WF := by
  unfold FileRecord.WF; infer_instance

/-- The TOC-info header of `bulk.js`: symmetric TOC key, TOC IV, and the TOC
start offset (a BigInt in the source). -/
structure Header where
  key : List Nat
  iv : List Nat
  start : Int
deriving DecidableEq, Repr

/-- `Header.prototype.toBinary`: ASCII `BULK#`, the hex version bytes
`001001`, then the RSA-4096-encrypted TOC-info block. RSA-OAEP is an OpenSSL
primitive, so the 512-byte ciphertext `rsaCipher` (the output of
`crypto.publicEncrypt` over key‖iv‖start‖200 random bytes) is a parameter. -/
def Header.toBinary (h : Header) (rsaCipher : List Nat) : List Nat :=
  [66, 85, 76, 75, 35] ++ [0, 16, 1] ++ rsaCipher

/-- `TableOfContents.toBinary` of `bulk.js`: serialize each record (each
serialization consumes an uninitialized buffer and a random fill, collected
in `rnd`) and CBC-encrypt the concatenation under the TOC key and IV; the
streamed `cipher.update` per record plus `cipher.final` is equivalent to
one-shot CBC over the concatenation. -/
def TableOfContents.toBinary (C : BlockCipher) (key iv : List Nat)
    (toc : List FileRecord) (rnd : List (List Nat × List Nat)) : List Nat :=
  cbcEncrypt C key iv
    (((toc.zip rnd).map (fun p => FileRecord.toBinary p.2.1 p.2.2 p.1)).flatten)

/-- The in-memory state of a `BulkStorage`: the decrypted header, the record
table, the underlying file content and the file descriptor (`-1` once
closed). -/
structure BulkStorage where
  headers : Header
  records : List FileRecord
  file : List Nat
  fd : Int
deriving DecidableEq, Repr

/-- `isClosed`: the private descriptor is set to `-1` by `close()`. -/
def BulkStorage.isClosed (st : BulkStorage) : Bool := st.fd == -1

/-- `close()`: release the descriptor; every later operation sees
`isClosed`. -/
def BulkStorage.close (st : BulkStorage) : BulkStorage := { st with fd := -1 }

/-- Model of `fs.createReadStream(null, {fd, start: s, end: e})` as
`BulkStorage.prototype.get` invokes it: Node treats BOTH bounds as
inclusive, so the stream yields the bytes at indices `s .. e`, clamped at
the end of file. -/
def createReadStreamRange (file : List Nat) (s e : Nat) : List Nat :=
  (file.drop s).take (e + 1 - s)

/-- Model of `FileInterface.prototype.readStream` of `io.js` with explicit
`start`/`end` parameters: it passes `Number(end) - 1` as the inclusive-end
option (source comment: "sub one to read like readSync"), so the stream
covers `[start, end)`. -/
def FileInterface.readStream (file : List Nat) (s e : Nat) : List Nat :=
  createReadStreamRange file s (e - 1)

/-- The first-match removal performed by `delete`'s tail branch
(`findIndex` + `splice(index, 1)`). -/
def removeFirst (uuid : List Nat) : List FileRecord → List FileRecord
  | [] => []
  | r :: rs => if r.uuid = uuid then rs else r :: removeFirst uuid rs

/-- The in-place `record.flags.toggleDeleted()` on the first record found by
`delete`'s non-tail branch. -/
def markDeletedFirst (uuid : List Nat) : List FileRecord → List FileRecord
  | [] => []
  | r :: rs =>
    if r.uuid = uuid then { r with flags := RecordFlags.toggleDeleted r.flags } :: rs
    else r :: markDeletedFirst uuid rs

/-- `BulkStorage.prototype.add`. The source pipes the caller's stream through
`crypto.createCipheriv('aes-256-cbc', this.headers.key, iv)` — the
storage-wide TOC key with a fresh random IV — into a write stream starting at
`headers.start`, counting the emitted ciphertext bytes.

`P` is the plaintext the source stream yields, `uuid` and `iv` are the
sampled randomness. `abort = none` is the `finish` path: a record
`{uuid, start, start+n, iv, flags: 0}` is pushed and `headers.start`
advances. `abort = some k` is the `error`/premature-`close` path after `k`
ciphertext bytes reached the file: the file is truncated back to the
reserved `headers.start` and the promise rejects (`WriteAborted`). -/
def BulkStorage.add (C : BlockCipher) (st : BulkStorage)
    (P uuid iv : List Nat) (abort : Option Nat) :
    BulkStorage × Except Err FileRecord :=
  if st.isClosed then (st, .error .storageClosed)
  else
    let ct := cbcEncrypt C st.headers.key iv P
    match abort with
    | some k =>
      let written := writeAt st.file st.headers.start.toNat (ct.take k)
      ({ st with file := ftruncate written st.headers.start.toNat },
        .error .writeAborted)
    | none =>
      let record : FileRecord :=
        ⟨uuid, st.headers.start, st.headers.start + ct.length, iv, 0⟩
      ({ st with
          headers := { st.headers with start := record.endPos },
          records := st.records ++ [record],
          file := writeAt st.file st.headers.start.toNat ct },
        .ok record)

/-- What reading the stream returned by `get` to completion produces. -/
inductive GetResult where
  /-- `get` returned `null`: unknown UUID or a `DELETED` record. -/
  | noRecord
  /-- the returned stream errors before its end (decipher failure). -/
  | streamError
  /-- the stream ends after yielding exactly `data`. -/
  | bytes (data : List Nat)
deriving DecidableEq, Repr

/-- `BulkStorage.prototype.get`: find the record by UUID (`Buffer.compare`
equality), return `null` for unknown or deleted records, otherwise pipe
`fs.createReadStream(null, {start: record.start, end: record.end})` — the
inclusive-end primitive — through
`crypto.createDecipheriv('aes-256-cbc', this.headers.key, record.iv)`. -/
def BulkStorage.get (C : BlockCipher) (st : BulkStorage) (uuid : List Nat) :
    Except Err GetResult :=
  if st.isClosed then .error .storageClosed
  else
    match st.records.find? (fun r => decide (r.uuid = uuid)) with
    | none => .ok .noRecord
    | some record =>
      if RecordFlags.isDeleted record.flags then .ok .noRecord
      else
        .ok (match cbcDecrypt C st.headers.key record.iv
            (createReadStreamRange st.file record.start.toNat record.endPos.toNat) with
          | none => .streamError
          | some data => .bytes data)

/-- `BulkStorage.prototype.delete`: `false` for unknown or already-deleted
UUIDs; tail records (`record.end === headers.start`) are spliced out of the
table, the file is truncated to `record.start` and `headers.start` moves
back; other records only get their `DELETED` flag toggled on. -/
def BulkStorage.delete (st : BulkStorage) (uuid : List Nat) :
    BulkStorage × Except Err Bool :=
  if st.isClosed then (st, .error .storageClosed)
  else
    match st.records.find? (fun r => decide (r.uuid = uuid)) with
    | none => (st, .ok false)
    | some record =>
      if RecordFlags.isDeleted record.flags then (st, .ok false)
      else if record.endPos = st.headers.start then
        ({ st with
            headers := { st.headers with start := record.start },
            file := ftruncate st.file record.start.toNat,
            records := removeFirst uuid st.records },
          .ok true)
      else
        ({ st with records := markDeletedFirst uuid st.records }, .ok true)

/-- `BulkStorage.prototype.sync(publicKey)`: truncate the file to
`headers.start`, write the encrypted TOC there, then overwrite the header at
offset 0. `rnd` carries the per-record serialization randomness and
`rsaCipher` the RSA-encrypted TOC-info block. -/
def BulkStorage.sync (C : BlockCipher) (st : BulkStorage)
    (rnd : List (List Nat × List Nat)) (rsaCipher : List Nat) :
    BulkStorage × Except Err Unit :=
  if st.isClosed then (st, .error .storageClosed)
  else
    let tocbin := TableOfContents.toBinary C st.headers.key st.headers.iv
      st.records rnd
    let f1 := ftruncate st.file st.headers.start.toNat
    let f2 := writeAt f1 st.headers.start.toNat tocbin
    let headerbin := Header.toBinary st.headers rsaCipher
    let f3 := writeAt f2 0 headerbin
    ({ st with file := f3 }, .ok ())

theorem writeAt_zero (f d : List Nat) : writeAt f 0 d = d ++ f.drop d.length := by
  simp [writeAt]

/-- UUID uniqueness of the record table (invariant of §3 of the spec;
`crypto.randomUUID` values are unique within a storage). -/
def UuidsUnique (l : List FileRecord) : Prop :=
  l.Pairwise (fun a b => a.uuid ≠ b.uuid)

instance (l : List FileRecord) : Decidable (UuidsUnique l) := by
  unfold UuidsUnique; infer_instance

theorem find?_removeFirst (uuid : List Nat) (l : List FileRecord)
    (hu : UuidsUnique l) :
    (removeFirst uuid l).find? (fun r => decide (r.uuid = uuid)) = none := by
  induction l with
  | nil => rfl
  | cons r0 rs ih =>
    have hpw := (List.pairwise_cons.mp hu)
    by_cases hr : r0.uuid = uuid
    · rw [removeFirst]
      simp only [hr, if_true]
      rw [List.find?_eq_none]
      intro x hx
      have := hpw.1 x hx
      rw [hr] at this
      simp [this.symm]
    · rw [removeFirst]
      simp only [hr, if_false]
      rw [List.find?_cons_of_neg _ (by simp [hr])]
      exact ih hpw.2

theorem length_removeFirst (uuid : List Nat) (l : List FileRecord)
    (r : FileRecord)
    (hf : l.find? (fun r => decide (r.uuid = uuid)) = some r) :
    (removeFirst uuid l).length + 1 = l.length := by
  induction l with
  | nil => simp at hf
  | cons r0 rs ih =>
    by_cases hr : r0.uuid = uuid
    · rw [removeFirst]
      simp [hr]
    · rw [removeFirst]
      simp only [hr, if_false]
      rw [List.find?_cons_of_neg _ (by simp [hr])] at hf
      simp only [List.length_cons]
      rw [← ih hf]

theorem find?_markDeletedFirst (uuid : List Nat) (l : List FileRecord)
    (r : FileRecord)
    (hf : l.find? (fun r => decide (r.uuid = uuid)) = some r) :
    (markDeletedFirst uuid l).find? (fun r => decide (r.uuid = uuid)) =
      some { r with flags := RecordFlags.toggleDeleted r.flags } := by
  induction l with
  | nil => simp at hf
  | cons r0 rs ih =>
    by_cases hr : r0.uuid = uuid
    · rw [List.find?_cons_of_pos _ (by simp [hr])] at hf
      have hr0 : r0 = r := by injection hf
      subst hr0
      rw [markDeletedFirst]
      simp only [hr, if_true]
      rw [List.find?_cons_of_pos _ (by simp [hr])]
    · rw [List.find?_cons_of_neg _ (by simp [hr])] at hf
      rw [markDeletedFirst]
      simp only [hr, if_false]
      rw [List.find?_cons_of_neg _ (by simp [hr])]
      exact ih hf

theorem length_markDeletedFirst (uuid : List Nat) (l : List FileRecord) :
    (markDeletedFirst uuid l).length = l.length := by
  induction l with
  | nil => rfl
  | cons r0 rs ih =>
    rw [markDeletedFirst]
    by_cases hr : r0.uuid = uuid <;> simp [hr, ih]

end Bulk

open Bulk in
/-- C8. After `close()` has set the descriptor to `-1`, every `add`, `get`,
`delete` and `sync` hits the `isClosed` guard and fails with the
`StorageClosed` error, with both the file and the record table (the whole
state) untouched. -/
theorem closed_storage_rejects_operations (C : BlockCipher)
    (st : BulkStorage) (P uuid iv : List Nat) (abort : Option Nat)
    (rnd : List (List Nat × List Nat)) (rsaCipher u2 u3 : List Nat)
    (h : st.isClosed = true) :
    BulkStorage.add C st P uuid iv abort = (st, .error .storageClosed)
    ∧ BulkStorage.get C st u2 = .error .storageClosed
    ∧ BulkStorage.delete st u3 = (st, .error .storageClosed)
    ∧ BulkStorage.sync C st rnd rsaCipher = (st, .error .storageClosed) := by
  refine ⟨?_, ?_, ?_, ?_⟩ <;>
    simp [BulkStorage.add, BulkStorage.get, BulkStorage.delete,
      BulkStorage.sync, h]

open Bulk in
/-- Witness for C8 on a concrete closed storage. -/
theorem closed_storage_rejects_operations_witness :
    BulkStorage.isClosed ⟨⟨List.replicate 32 0, List.replicate 16 0, 520⟩,
      [], List.replicate 520 0, -1⟩ = true
    ∧ BulkStorage.add toyCipher
        ⟨⟨List.replicate 32 0, List.replicate 16 0, 520⟩,
          [], List.replicate 520 0, -1⟩ [1] (List.replicate 16 1)
        (List.replicate 16 2) none =
      (⟨⟨List.replicate 32 0, List.replicate 16 0, 520⟩,
        [], List.replicate 520 0, -1⟩, .error .storageClosed)
    ∧ BulkStorage.get toyCipher
        ⟨⟨List.replicate 32 0, List.replicate 16 0, 520⟩,
          [], List.replicate 520 0, -1⟩ (List.replicate 16 1) =
      .error .storageClosed := by
  refine ⟨by decide, ?_, ?_⟩
  · exact (closed_storage_rejects_operations toyCipher _ [1]
      (List.replicate 16 1) (List.replicate 16 2) none [] []
      (List.replicate 16 1) (List.replicate 16 1) (by decide)).1
  · exact (closed_storage_rejects_operations toyCipher _ [1]
      (List.replicate 16 1) (List.replicate 16 2) none [] []
      (List.replicate 16 1) (List.replicate 16 1) (by decide)).2.1

open Bulk in
/-- C3. When `add` fails before `finish` (encryptor error or premature
stream close, `abort = some k` after `k` ciphertext bytes), the promise
rejects with `WriteAborted`, the file is truncated back to the reserved
offset `headers.start`, and the in-memory state is untouched: `records` and
the whole header (hence `tocStart = headers.start`) keep their values. When
the file tail was exactly at `headers.start` before the call (the invariant
an open storage maintains), the file is bytewise unchanged. -/
theorem add_abort_rolls_back (C : BlockCipher) (st : BulkStorage)
    (P uuid iv : List Nat) (k : Nat) (h : st.isClosed = false) :
    (BulkStorage.add C st P uuid iv (some k)).2 = .error .writeAborted
    ∧ (BulkStorage.add C st P uuid iv (some k)).1.records = st.records
    ∧ (BulkStorage.add C st P uuid iv (some k)).1.headers = st.headers
    ∧ (BulkStorage.add C st P uuid iv (some k)).1.file =
        ftruncate st.file st.headers.start.toNat
    ∧ (st.file.length = st.headers.start.toNat →
        (BulkStorage.add C st P uuid iv (some k)).1.file = st.file) := by
  refine ⟨?_, ?_, ?_, ?_, ?_⟩
  · simp [BulkStorage.add, h]
  · simp [BulkStorage.add, h]
  · simp [BulkStorage.add, h]
  · simp only [BulkStorage.add, h, Bool.false_eq_true, if_false]
    exact ftruncate_writeAt st.file st.headers.start.toNat _
  · intro hlen
    simp only [BulkStorage.add, h, Bool.false_eq_true, if_false]
    rw [ftruncate_writeAt st.file st.headers.start.toNat _,
      ftruncate_eq_self st.file _ hlen.symm]

open Bulk in
/-- Witness for C3: an aborted `add` on a concrete open storage leaves the
state exactly as it was. -/
theorem add_abort_rolls_back_witness :
    BulkStorage.isClosed ⟨⟨List.replicate 32 0, List.replicate 16 0, 520⟩,
      [], List.replicate 520 0, 3⟩ = false
    ∧ (BulkStorage.add toyCipher
        ⟨⟨List.replicate 32 0, List.replicate 16 0, 520⟩,
          [], List.replicate 520 0, 3⟩ [1, 2, 3] (List.replicate 16 1)
        (List.replicate 16 2) (some 5)).2 = .error .writeAborted
    ∧ (BulkStorage.add toyCipher
        ⟨⟨List.replicate 32 0, List.replicate 16 0, 520⟩,
          [], List.replicate 520 0, 3⟩ [1, 2, 3] (List.replicate 16 1)
        (List.replicate 16 2) (some 5)).1.file = List.replicate 520 0 := by
  have h := add_abort_rolls_back toyCipher
    ⟨⟨List.replicate 32 0, List.replicate 16 0, 520⟩,
      [], List.replicate 520 0, 3⟩ [1, 2, 3] (List.replicate 16 1)
    (List.replicate 16 2) 5 (by decide)
  exact ⟨by decide, h.1, h.2.2.2.2 (by decide)⟩

theorem drop_append_ge (A B : List Nat) (n : Nat) (h : A.length ≤ n) :
    (A ++ B).drop n = B.drop (n - A.length) := by
  conv_lhs => rw [show n = A.length + (n - A.length) by omega]
  exact List.drop_append _

open Bulk in
theorem sync_ok_of_open (C : BlockCipher) (st : BulkStorage)
    (rnd : List (List Nat × List Nat)) (rsaCipher : List Nat)
    (h : st.isClosed = false) :
    (BulkStorage.sync C st rnd rsaCipher).2 = .ok () := by
  simp [BulkStorage.sync, h]

open Bulk in
/-- C9. `sync(publicKey)` writes the encrypted TOC at `headers.start` and the
520-byte header at offset 0, but never touches the in-memory state: the
header fields (key, IV, `tocStart`), the record table and the descriptor all
keep their values, the storage stays open, and a second `sync` succeeds. -/
theorem sync_preserves_memory_state (C : BlockCipher) (st : BulkStorage)
    (rnd : List (List Nat × List Nat)) (rsaCipher : List Nat)
    (h : st.isClosed = false) (hrsa : rsaCipher.length = 512)
    (hstart : 520 ≤ st.headers.start.toNat) :
    (BulkStorage.sync C st rnd rsaCipher).2 = .ok ()
    ∧ (BulkStorage.sync C st rnd rsaCipher).1.headers = st.headers
    ∧ (BulkStorage.sync C st rnd rsaCipher).1.records = st.records
    ∧ (BulkStorage.sync C st rnd rsaCipher).1.fd = st.fd
    ∧ (BulkStorage.sync C st rnd rsaCipher).1.isClosed = false
    ∧ subarray (BulkStorage.sync C st rnd rsaCipher).1.file 0 520 =
        Header.toBinary st.headers rsaCipher
    ∧ subarray (BulkStorage.sync C st rnd rsaCipher).1.file
        st.headers.start.toNat
        (st.headers.start.toNat +
          (TableOfContents.toBinary C st.headers.key st.headers.iv
            st.records rnd).length) =
        TableOfContents.toBinary C st.headers.key st.headers.iv st.records rnd
    ∧ ∀ rnd2 rsa2,
        (BulkStorage.sync C (BulkStorage.sync C st rnd rsaCipher).1
          rnd2 rsa2).2 = .ok () := by
  have hhb : (Header.toBinary st.headers rsaCipher).length = 520 := by
    simp [Header.toBinary, hrsa]
  have hclosed : (BulkStorage.sync C st rnd rsaCipher).1.isClosed = false := by
    simp only [BulkStorage.sync, h, Bool.false_eq_true, if_false]
    exact h
  refine ⟨sync_ok_of_open C st rnd rsaCipher h, ?_, ?_, ?_, hclosed, ?_, ?_, ?_⟩
  · simp [BulkStorage.sync, h]
  · simp [BulkStorage.sync, h]
  · simp [BulkStorage.sync, h]
  · simp only [BulkStorage.sync, h, Bool.false_eq_true, if_false]
    rw [writeAt_zero]
    unfold subarray
    simp only [Nat.sub_zero, List.drop_zero]
    exact List.take_left' hhb
  · simp only [BulkStorage.sync, h, Bool.false_eq_true, if_false]
    rw [writeAt_zero]
    unfold subarray
    rw [drop_append_ge _ _ _ (by omega), hhb, List.drop_drop]
    have hs : 520 + (st.headers.start.toNat - 520) = st.headers.start.toNat := by
      omega
    rw [hs, writeAt_drop]
    have hL : st.headers.start.toNat +
        (TableOfContents.toBinary C st.headers.key st.headers.iv
          st.records rnd).length - st.headers.start.toNat =
        (TableOfContents.toBinary C st.headers.key st.headers.iv
          st.records rnd).length := by
      omega
    rw [hL]
    exact List.take_left' rfl
  · intro rnd2 rsa2
    exact sync_ok_of_open C _ rnd2 rsa2 hclosed

open Bulk in
/-- Witness for C9 on a concrete open storage with one record. -/
theorem sync_preserves_memory_state_witness :
    BulkStorage.isClosed ⟨⟨List.replicate 32 0, List.replicate 16 0, 536⟩,
      [⟨List.replicate 16 1, 520, 536, List.replicate 16 3, 0⟩],
      List.replicate 536 7, 3⟩ = false
    ∧ (List.replicate 512 9 : List Nat).length = 512
    ∧ (520 : Int).toNat ≤ (536 : Int).toNat
    ∧ (BulkStorage.sync toyCipher
        ⟨⟨List.replicate 32 0, List.replicate 16 0, 536⟩,
          [⟨List.replicate 16 1, 520, 536, List.replicate 16 3, 0⟩],
          List.replicate 536 7, 3⟩ [(List.replicate 128 0, List.replicate 78 0)]
        (List.replicate 512 9)).2 = .ok ()
    ∧ (BulkStorage.sync toyCipher
        ⟨⟨List.replicate 32 0, List.replicate 16 0, 536⟩,
          [⟨List.replicate 16 1, 520, 536, List.replicate 16 3, 0⟩],
          List.replicate 536 7, 3⟩ [(List.replicate 128 0, List.replicate 78 0)]
        (List.replicate 512 9)).1.records =
      [⟨List.replicate 16 1, 520, 536, List.replicate 16 3, 0⟩] := by
  have h := sync_preserves_memory_state toyCipher
    ⟨⟨List.replicate 32 0, List.replicate 16 0, 536⟩,
      [⟨List.replicate 16 1, 520, 536, List.replicate 16 3, 0⟩],
      List.replicate 536 7, 3⟩ [(List.replicate 128 0, List.replicate 78 0)]
    (List.replicate 512 9) (by decide) (by decide) (by decide)
  exact ⟨by decide, by decide, by decide, h.1, h.2.2.1⟩

open Bulk in
/-- C5 (amended). `add` samples only a fresh 16-byte IV; the record it
returns has no key field, and the ciphertext appended at the reserved offset
is exactly the AES-256-CBC encryption of the plaintext under the
storage-wide TOC key `headers.key` with that IV — so it decrypts under
`headers.key`, not under any per-record key. -/
theorem add_encrypts_under_storage_key (C : BlockCipher) (st : BulkStorage)
    (P uuid iv : List Nat) (h : st.isClosed = false)
    (hlen : st.file.length = st.headers.start.toNat) (hiv : iv.length = 16) :
    ∃ r, (BulkStorage.add C st P uuid iv none).2 = .ok r
    ∧ r.iv = iv
    ∧ (BulkStorage.add C st P uuid iv none).1.file.drop
        st.headers.start.toNat = cbcEncrypt C st.headers.key iv P
    ∧ cbcDecrypt C st.headers.key iv
        ((BulkStorage.add C st P uuid iv none).1.file.drop
          st.headers.start.toNat) = some P := by
  have hdrop : (BulkStorage.add C st P uuid iv none).1.file.drop
      st.headers.start.toNat = cbcEncrypt C st.headers.key iv P := by
    simp only [BulkStorage.add, h, Bool.false_eq_true, if_false]
    rw [writeAt_append st.file _ _ hlen.symm]
    exact List.drop_left' hlen
  refine ⟨⟨uuid, st.headers.start,
    st.headers.start + (cbcEncrypt C st.headers.key iv P).length, iv, 0⟩,
    ?_, rfl, hdrop, ?_⟩
  · simp [BulkStorage.add, h]
  · rw [hdrop]
    exact cbcDecrypt_cbcEncrypt C st.headers.key iv P hiv

open Bulk in
/-- Witness for the amended C5 on concrete data. -/
theorem add_encrypts_under_storage_key_witness :
    BulkStorage.isClosed ⟨⟨List.replicate 32 0, List.replicate 16 0, 4⟩,
      [], List.replicate 4 0, 3⟩ = false
    ∧ (List.replicate 4 0 : List Nat).length = (4 : Int).toNat
    ∧ (List.replicate 16 0 : List Nat).length = 16
    ∧ ∃ r, (BulkStorage.add toyCipher
        ⟨⟨List.replicate 32 0, List.replicate 16 0, 4⟩,
          [], List.replicate 4 0, 3⟩ [9] (List.replicate 16 5)
        (List.replicate 16 0) none).2 = .ok r
      ∧ r.iv = List.replicate 16 0 := by
  have h := add_encrypts_under_storage_key toyCipher
    ⟨⟨List.replicate 32 0, List.replicate 16 0, 4⟩,
      [], List.replicate 4 0, 3⟩ [9] (List.replicate 16 5)
    (List.replicate 16 0) (by decide) (by decide) (by decide)
  obtain ⟨r, h1, h2, _, _⟩ := h
  exact ⟨by decide, by decide, by decide, r, h1, h2⟩

open Bulk in
/-- Counterexample for C5 as stated: on a concrete storage whose TOC key is
the all-zero key, the body bytes that `add` appends are exactly the CBC
encryption of the plaintext under that storage-wide TOC key, and differ from
the encryption under a different (would-be per-record) key — `bulk.js`
passes `this.headers.key` to `createCipheriv` and its record type carries no
key field at all. -/
theorem add_per_record_key_counterexample :
    ((BulkStorage.add toyCipher
        ⟨⟨List.replicate 32 0, List.replicate 16 0, 4⟩,
          [], List.replicate 4 0, 3⟩ [9] (List.replicate 16 5)
        (List.replicate 16 0) none).1.file.drop 4 =
      cbcEncrypt toyCipher (List.replicate 32 0) (List.replicate 16 0) [9])
    ∧ ((BulkStorage.add toyCipher
        ⟨⟨List.replicate 32 0, List.replicate 16 0, 4⟩,
          [], List.replicate 4 0, 3⟩ [9] (List.replicate 16 5)
        (List.replicate 16 0) none).1.file.drop 4 ≠
      cbcEncrypt toyCipher (List.replicate 32 1) (List.replicate 16 0) [9]) := by
  exact ⟨by decide, by decide⟩

/-- C10. When `options.end` is omitted, `FileRecord.create` defaults `end`
to `start + 1n`, so the constructor's `start >= end` InvalidRecord branch
cannot fire: creation succeeds for every `start`. -/
theorem create_with_default_end (options : Option Filerecord.CreateOptions)
    (uuid key iv : List Nat) (ctime : Int)
    (hend : (options.getD {}).endPos = none) (hiv : iv.length = 16) :
    ∃ r, Filerecord.FileRecord.create options uuid key iv ctime = .ok r
    ∧ r.endPos = r.start + 1
    ∧ r.start = (options.getD {}).start.getD 0 := by
  simp only [Filerecord.FileRecord.create, Filerecord.FileRecord.make, hend,
    Option.getD_none]
  rw [if_neg (by omega), if_neg (by omega)]
  exact ⟨_, rfl, rfl, rfl⟩

/-- Witness for C10 on concrete inputs. -/
theorem create_with_default_end_witness :
    ((none : Option Filerecord.CreateOptions).getD {}).endPos = none
    ∧ (List.replicate 16 0 : List Nat).length = 16
    ∧ ∃ r, Filerecord.FileRecord.create none [] [] (List.replicate 16 0) 0 =
        .ok r ∧ r.endPos = r.start + 1 := by
  obtain ⟨r, h1, h2, _⟩ := create_with_default_end none [] []
    (List.replicate 16 0) 0 rfl (by decide)
  exact ⟨rfl, by decide, r, h1, h2⟩

open Bulk in
/-- C4. `delete(uuid)` returns `false` when no record carries the UUID or
the matching record is already `DELETED`. Otherwise it returns `true` and:
when the record is the tail (`record.end == headers.start`) it removes the
record from the table, truncates the file to `record.start` and moves
`tocStart` back to `record.start`; any other record merely gets its
`DELETED` flag set, with the record, the file bytes and the header left in
place. -/
theorem delete_spec (st : BulkStorage) (uuid : List Nat)
    (h : st.isClosed = false) (hu : UuidsUnique st.records) :
    (st.records.find? (fun r => decide (r.uuid = uuid)) = none →
      BulkStorage.delete st uuid = (st, .ok false))
    ∧ (∀ r, st.records.find? (fun r => decide (r.uuid = uuid)) = some r →
        RecordFlags.isDeleted r.flags = true →
        BulkStorage.delete st uuid = (st, .ok false))
    ∧ (∀ r, st.records.find? (fun r => decide (r.uuid = uuid)) = some r →
        RecordFlags.isDeleted r.flags = false →
        r.endPos = st.headers.start →
        (BulkStorage.delete st uuid).2 = .ok true
        ∧ (BulkStorage.delete st uuid).1.headers.start = r.start
        ∧ (BulkStorage.delete st uuid).1.headers.key = st.headers.key
        ∧ (BulkStorage.delete st uuid).1.headers.iv = st.headers.iv
        ∧ (BulkStorage.delete st uuid).1.file =
            ftruncate st.file r.start.toNat
        ∧ (BulkStorage.delete st uuid).1.records.find?
            (fun x => decide (x.uuid = uuid)) = none
        ∧ (BulkStorage.delete st uuid).1.records.length + 1 =
            st.records.length)
    ∧ (∀ r, st.records.find? (fun r => decide (r.uuid = uuid)) = some r →
        RecordFlags.isDeleted r.flags = false →
        r.endPos ≠ st.headers.start →
        (BulkStorage.delete st uuid).2 = .ok true
        ∧ (BulkStorage.delete st uuid).1.file = st.file
        ∧ (BulkStorage.delete st uuid).1.headers = st.headers
        ∧ (BulkStorage.delete st uuid).1.records.length = st.records.length
        ∧ (BulkStorage.delete st uuid).1.records.find?
            (fun x => decide (x.uuid = uuid)) =
            some { r with flags := RecordFlags.toggleDeleted r.flags }
        ∧ RecordFlags.isDeleted (RecordFlags.toggleDeleted r.flags) = true) := by
  refine ⟨?_, ?_, ?_, ?_⟩
  · intro hf
    simp only [BulkStorage.delete, h, Bool.false_eq_true, if_false, hf]
  · intro r hf hd
    simp only [BulkStorage.delete, h, Bool.false_eq_true, if_false, hf, hd,
      if_true]
  · intro r hf hd he
    have key : BulkStorage.delete st uuid =
        ({ st with
            headers := { st.headers with start := r.start },
            file := ftruncate st.file r.start.toNat,
            records := removeFirst uuid st.records },
          Except.ok true) := by
      simp only [BulkStorage.delete, h, Bool.false_eq_true, if_false, hf, hd,
        he, if_true]
    rw [key]
    exact ⟨rfl, rfl, rfl, rfl, rfl,
      find?_removeFirst uuid st.records hu,
      length_removeFirst uuid st.records r hf⟩
  · intro r hf hd hne
    have key : BulkStorage.delete st uuid =
        ({ st with records := markDeletedFirst uuid st.records }, .ok true) := by
      simp only [BulkStorage.delete, h, Bool.false_eq_true, if_false, hf, hd,
        hne, if_false]
    rw [key]
    exact ⟨rfl, rfl, rfl,
      length_markDeletedFirst uuid st.records,
      find?_markDeletedFirst uuid st.records r hf,
      RecordFlags.isDeleted_toggleDeleted r.flags hd⟩

open Bulk in
/-- Witness for C4: tail deletion on a concrete two-record storage removes
the record, truncates the file and moves the tail pointer back. -/
theorem delete_spec_witness :
    BulkStorage.isClosed ⟨⟨List.replicate 32 0, List.replicate 16 0, 552⟩,
      [⟨List.replicate 16 1, 520, 536, List.replicate 16 3, 0⟩,
        ⟨List.replicate 16 2, 536, 552, List.replicate 16 4, 0⟩],
      List.replicate 552 9, 3⟩ = false
    ∧ (BulkStorage.delete
        ⟨⟨List.replicate 32 0, List.replicate 16 0, 552⟩,
          [⟨List.replicate 16 1, 520, 536, List.replicate 16 3, 0⟩,
            ⟨List.replicate 16 2, 536, 552, List.replicate 16 4, 0⟩],
          List.replicate 552 9, 3⟩ (List.replicate 16 2)).2 = .ok true
    ∧ (BulkStorage.delete
        ⟨⟨List.replicate 32 0, List.replicate 16 0, 552⟩,
          [⟨List.replicate 16 1, 520, 536, List.replicate 16 3, 0⟩,
            ⟨List.replicate 16 2, 536, 552, List.replicate 16 4, 0⟩],
          List.replicate 552 9, 3⟩ (List.replicate 16 2)).1.headers.start = 536
    ∧ (BulkStorage.delete
        ⟨⟨List.replicate 32 0, List.replicate 16 0, 552⟩,
          [⟨List.replicate 16 1, 520, 536, List.replicate 16 3, 0⟩,
            ⟨List.replicate 16 2, 536, 552, List.replicate 16 4, 0⟩],
          List.replicate 552 9, 3⟩ (List.replicate 16 2)).1.records.length + 1 =
        2 := by
  have h := delete_spec
    ⟨⟨List.replicate 32 0, List.replicate 16 0, 552⟩,
      [⟨List.replicate 16 1, 520, 536, List.replicate 16 3, 0⟩,
        ⟨List.replicate 16 2, 536, 552, List.replicate 16 4, 0⟩],
      List.replicate 552 9, 3⟩ (List.replicate 16 2) (by decide) (by decide)
  have h3 := h.2.2.1 ⟨List.replicate 16 2, 536, 552, List.replicate 16 4, 0⟩
    (by decide) (by decide) (by decide)
  exact ⟨by decide, h3.1, h3.2.1, h3.2.2.2.2.2.2⟩

theorem bufSet_take_off (b d : List Nat) (off : Nat) (hb : off ≤ b.length) :
    (bufSet b d off).take off = b.take off := by
  unfold bufSet
  rw [List.append_assoc]
  exact List.take_left' (by simp; omega)

/-- Bytes strictly below the written region are unaffected by a `set`. -/
theorem bufSet_subarray_lower (b d : List Nat) (off i j : Nat)
    (hj : j ≤ off) (hb : off ≤ b.length) :
    subarray (bufSet b d off) i j = subarray b i j :=
  subarray_eq_of_take_eq _ _ off i j (bufSet_take_off b d off hb) hj

/-- Reading back exactly the written region of a `set` returns the data. -/
theorem bufSet_subarray_at (b d : List Nat) (off : Nat) (hb : off ≤ b.length) :
    subarray (bufSet b d off) off (off + d.length) = d := by
  unfold subarray bufSet
  rw [List.append_assoc, List.drop_left' (by simp; omega)]
  have hlen : off + d.length - off = d.length := by omega
  rw [hlen]
  exact List.take_left d _

theorem bufSet_subarray_at' (b d : List Nat) (off j : Nat)
    (hb : off ≤ b.length) (hj : j = off + d.length) :
    subarray (bufSet b d off) off j = d := by
  rw [hj]
  exact bufSet_subarray_at b d off hb

theorem bufFill0_take_off (b : List Nat) (off : Nat) (hb : off ≤ b.length) :
    (bufFill0 b off).take off = b.take off := by
  unfold bufFill0
  exact List.take_left' (by simp; omega)

theorem bufFill0_subarray_lower (b : List Nat) (off i j : Nat)
    (hj : j ≤ off) (hb : off ≤ b.length) :
    subarray (bufFill0 b off) i j = subarray b i j :=
  subarray_eq_of_take_eq _ _ off i j (bufFill0_take_off b off hb) hj

/-- C6 (amended), part 1: the canonical 256-byte `toBinary` of
`filerecord.js` ends the record with `fill(0, 142)`, so every reserved byte
of its output is zero. -/
theorem Filerecord.toBinary_reserved_zero (junk : List Nat)
    (r : Filerecord.FileRecord) (hj : junk.length = 256) (hw : r.WF) :
    (Filerecord.FileRecord.toBinary junk r).drop 142 =
      List.replicate 114 0 := by
  obtain ⟨hu, hk, hiv, hc, hm, hs⟩ := hw
  simp only [Filerecord.FileRecord.toBinary]
  set b0 := bufSet junk r.uuid 0 with hb0
  set b1 := bufSet b0 (encBigInt64LE r.start) 16 with hb1
  set b2 := bufSet b1 (encBigInt64LE r.endPos) 24 with hb2
  set b3 := bufSet b2 r.key 32 with hb3
  set b4 := bufSet b3 r.iv 64 with hb4
  set b5 := bufSet b4 r.crc 80 with hb5
  set b6 := bufSet b5 r.md5 84 with hb6
  set b7 := bufSet b6 r.sha 100 with hb7
  set b8 := bufSet b7 (encBigInt64LE r.ctime) 132 with hb8
  set b9 := bufSet b8 (encUInt16LE r.flags) 140 with hb9
  have l0 : b0.length = 256 := by
    rw [hb0, bufSet_length _ _ _ (by rw [hu, hj]; norm_num), hj]
  have l1 : b1.length = 256 := by
    rw [hb1, bufSet_length _ _ _ (by rw [length_encBigInt64LE, l0]; norm_num), l0]
  have l2 : b2.length = 256 := by
    rw [hb2, bufSet_length _ _ _ (by rw [length_encBigInt64LE, l1]; norm_num), l1]
  have l3 : b3.length = 256 := by
    rw [hb3, bufSet_length _ _ _ (by rw [hk, l2]; norm_num), l2]
  have l4 : b4.length = 256 := by
    rw [hb4, bufSet_length _ _ _ (by rw [hiv, l3]; norm_num), l3]
  have l5 : b5.length = 256 := by
    rw [hb5, bufSet_length _ _ _ (by rw [hc, l4]; norm_num), l4]
  have l6 : b6.length = 256 := by
    rw [hb6, bufSet_length _ _ _ (by rw [hm, l5]; norm_num), l5]
  have l7 : b7.length = 256 := by
    rw [hb7, bufSet_length _ _ _ (by rw [hs, l6]; norm_num), l6]
  have l8 : b8.length = 256 := by
    rw [hb8, bufSet_length _ _ _ (by rw [length_encBigInt64LE, l7]; norm_num), l7]
  have l9 : b9.length = 256 := by
    rw [hb9, bufSet_length _ _ _ (by rw [length_encUInt16LE, l8]; norm_num), l8]
  unfold bufFill0
  rw [List.drop_left' (by simp [l9]), l9]

/-- C6 (amended), part 2: the 256-byte parser of `filerecord.js` never looks
at the bytes from offset 142 on. -/
theorem fromBinary256_ignores_reserved (b1 b2 : List Nat)
    (h : b1.take 142 = b2.take 142) :
    Filerecord.FileRecord.fromBinary b1 =
      Filerecord.FileRecord.fromBinary b2 := by
  unfold Filerecord.FileRecord.fromBinary
  rw [subarray_eq_of_take_eq b1 b2 142 0 16 h (by norm_num),
    subarray_eq_of_take_eq b1 b2 142 16 24 h (by norm_num),
    subarray_eq_of_take_eq b1 b2 142 24 32 h (by norm_num),
    subarray_eq_of_take_eq b1 b2 142 32 64 h (by norm_num),
    subarray_eq_of_take_eq b1 b2 142 64 80 h (by norm_num),
    subarray_eq_of_take_eq b1 b2 142 80 84 h (by norm_num),
    subarray_eq_of_take_eq b1 b2 142 84 100 h (by norm_num),
    subarray_eq_of_take_eq b1 b2 142 100 132 h (by norm_num),
    subarray_eq_of_take_eq b1 b2 142 132 140 h (by norm_num),
    subarray_eq_of_take_eq b1 b2 142 140 142 h (by norm_num)]

/-- C6 (amended), part 3: the 128-byte parser of `bulk.js` never looks at
the bytes from offset 50 on (where `toBinary` wrote random filler). -/
theorem fromBinary128_ignores_reserved (b1 b2 : List Nat)
    (h : b1.take 50 = b2.take 50) :
    Bulk.FileRecord.fromBinary b1 = Bulk.FileRecord.fromBinary b2 := by
  unfold Bulk.FileRecord.fromBinary
  rw [subarray_eq_of_take_eq b1 b2 50 0 16 h (by norm_num),
    subarray_eq_of_take_eq b1 b2 50 16 24 h (by norm_num),
    subarray_eq_of_take_eq b1 b2 50 24 32 h (by norm_num),
    subarray_eq_of_take_eq b1 b2 50 32 48 h (by norm_num),
    subarray_eq_of_take_eq b1 b2 50 48 50 h (by norm_num)]

/-- C6 (amended). The 256-byte `FileRecord` of `filerecord.js` serializes
every reserved byte (offsets 142-255) as zero and its parser ignores them;
the 128-byte `FileRecord` of `bulk.js` also parses while ignoring its
reserved region (offsets 50-127) — but, as the counterexample shows, it
serializes that region as random bytes, not zeros. -/
theorem reserved_bytes_spec :
    (∀ (junk : List Nat) (r : Filerecord.FileRecord), junk.length = 256 →
      r.WF →
      (Filerecord.FileRecord.toBinary junk r).drop 142 =
        List.replicate 114 0)
    ∧ (∀ b1 b2 : List Nat, b1.take 142 = b2.take 142 →
      Filerecord.FileRecord.fromBinary b1 =
        Filerecord.FileRecord.fromBinary b2)
    ∧ (∀ b1 b2 : List Nat, b1.take 50 = b2.take 50 →
      Bulk.FileRecord.fromBinary b1 = Bulk.FileRecord.fromBinary b2) :=
  ⟨Filerecord.toBinary_reserved_zero, fromBinary256_ignores_reserved,
    fromBinary128_ignores_reserved⟩

/-- Witness for the amended C6 on concrete buffers and a concrete record. -/
theorem reserved_bytes_spec_witness :
    (List.replicate 256 7 : List Nat).length = 256
    ∧ Filerecord.FileRecord.WF ⟨List.replicate 16 1, 520, 536,
        List.replicate 32 2, List.replicate 16 3, List.replicate 4 4,
        List.replicate 16 5, List.replicate 32 6, 1000, 0⟩
    ∧ (Filerecord.FileRecord.toBinary (List.replicate 256 7)
        ⟨List.replicate 16 1, 520, 536, List.replicate 32 2,
          List.replicate 16 3, List.replicate 4 4, List.replicate 16 5,
          List.replicate 32 6, 1000, 0⟩).drop 142 = List.replicate 114 0
    ∧ Filerecord.FileRecord.fromBinary
        (List.replicate 142 1 ++ List.replicate 114 8) =
      Filerecord.FileRecord.fromBinary
        (List.replicate 142 1 ++ List.replicate 114 9) := by
  refine ⟨by decide, by decide, ?_, ?_⟩
  · exact reserved_bytes_spec.1 (List.replicate 256 7)
      ⟨List.replicate 16 1, 520, 536, List.replicate 32 2,
        List.replicate 16 3, List.replicate 4 4, List.replicate 16 5,
        List.replicate 32 6, 1000, 0⟩ (by decide) (by decide)
  · exact reserved_bytes_spec.2.1 _ _ (by decide)

/-- Counterexample for C6 as stated: the 128-byte `FileRecord.toBinary` of
`bulk.js` fills its reserved region with `crypto.randomFillSync`, so on a
concrete record (with a random fill whose bytes are 9) the first reserved
byte (offset 50, right after the `flags` field at 48-49) is 9, not zero. -/
theorem reserved_bytes_counterexample :
    (Bulk.FileRecord.toBinary (List.replicate 128 0) (List.replicate 78 9)
      ⟨List.replicate 16 1, 520, 536, List.replicate 16 3, 0⟩).getD 50 0 ≠
      0 := by
  decide

/-- C7. Round trip of the canonical record codec: parsing a serialized
`FileRecord` recovers every declared field (uuid, start, end, key, iv, crc,
md5, sha, ctime, flags) byte for byte. The hypotheses state what
`filerecord.js` guarantees for real records: the documented field lengths,
`start < end` (enforced by the constructor), 64-bit-representable offsets
and timestamp (`writeBigInt64LE` throws otherwise), and 16-bit flags
(`writeUInt16LE` throws otherwise). -/
theorem record_roundtrip (junk : List Nat) (r : Filerecord.FileRecord)
    (hj : junk.length = 256) (hw : r.WF)
    (hs1 : -(2 ^ 63) ≤ r.start) (hs2 : r.endPos < 2 ^ 63)
    (hlt : r.start < r.endPos)
    (hc1 : -(2 ^ 63) ≤ r.ctime) (hc2 : r.ctime < 2 ^ 63)
    (hf : r.flags < 2 ^ 16) :
    Filerecord.FileRecord.fromBinary (Filerecord.FileRecord.toBinary junk r) =
      .ok r := by
  obtain ⟨hu, hk, hiv, hc, hm, hs⟩ := hw
  simp only [Filerecord.FileRecord.toBinary]
  set b0 := bufSet junk r.uuid 0 with hb0
  set b1 := bufSet b0 (encBigInt64LE r.start) 16 with hb1
  set b2 := bufSet b1 (encBigInt64LE r.endPos) 24 with hb2
  set b3 := bufSet b2 r.key 32 with hb3
  set b4 := bufSet b3 r.iv 64 with hb4
  set b5 := bufSet b4 r.crc 80 with hb5
  set b6 := bufSet b5 r.md5 84 with hb6
  set b7 := bufSet b6 r.sha 100 with hb7
  set b8 := bufSet b7 (encBigInt64LE r.ctime) 132 with hb8
  set b9 := bufSet b8 (encUInt16LE r.flags) 140 with hb9
  have l0 : b0.length = 256 := by
    rw [hb0, bufSet_length _ _ _ (by rw [hu, hj]; norm_num), hj]
  have l1 : b1.length = 256 := by
    rw [hb1, bufSet_length _ _ _ (by rw [length_encBigInt64LE, l0]; norm_num), l0]
  have l2 : b2.length = 256 := by
    rw [hb2, bufSet_length _ _ _ (by rw [length_encBigInt64LE, l1]; norm_num), l1]
  have l3 : b3.length = 256 := by
    rw [hb3, bufSet_length _ _ _ (by rw [hk, l2]; norm_num), l2]
  have l4 : b4.length = 256 := by
    rw [hb4, bufSet_length _ _ _ (by rw [hiv, l3]; norm_num), l3]
  have l5 : b5.length = 256 := by
    rw [hb5, bufSet_length _ _ _ (by rw [hc, l4]; norm_num), l4]
  have l6 : b6.length = 256 := by
    rw [hb6, bufSet_length _ _ _ (by rw [hm, l5]; norm_num), l5]
  have l7 : b7.length = 256 := by
    rw [hb7, bufSet_length _ _ _ (by rw [hs, l6]; norm_num), l6]
  have l8 : b8.length = 256 := by
    rw [hb8, bufSet_length _ _ _ (by rw [length_encBigInt64LE, l7]; norm_num), l7]
  have l9 : b9.length = 256 := by
    rw [hb9, bufSet_length _ _ _ (by rw [length_encUInt16LE, l8]; norm_num), l8]
  have fuuid : subarray (bufFill0 b9 142) 0 16 = r.uuid := by
    rw [bufFill0_subarray_lower _ _ _ _ (by norm_num) (by rw [l9]; norm_num),
      hb9, bufSet_subarray_lower _ _ _ _ _ (by norm_num) (by rw [l8]; norm_num),
      hb8, bufSet_subarray_lower _ _ _ _ _ (by norm_num) (by rw [l7]; norm_num),
      hb7, bufSet_subarray_lower _ _ _ _ _ (by norm_num) (by rw [l6]; norm_num),
      hb6, bufSet_subarray_lower _ _ _ _ _ (by norm_num) (by rw [l5]; norm_num),
      hb5, bufSet_subarray_lower _ _ _ _ _ (by norm_num) (by rw [l4]; norm_num),
      hb4, bufSet_subarray_lower _ _ _ _ _ (by norm_num) (by rw [l3]; norm_num),
      hb3, bufSet_subarray_lower _ _ _ _ _ (by norm_num) (by rw [l2]; norm_num),
      hb2, bufSet_subarray_lower _ _ _ _ _ (by norm_num) (by rw [l1]; norm_num),
      hb1, bufSet_subarray_lower _ _ _ _ _ (by norm_num) (by rw [l0]; norm_num),
      hb0, bufSet_subarray_at' _ _ _ _ (by rw [hj]; norm_num) (by simp [hu])]
  have fstart : subarray (bufFill0 b9 142) 16 24 = encBigInt64LE r.start := by
    rw [bufFill0_subarray_lower _ _ _ _ (by norm_num) (by rw [l9]; norm_num),
      hb9, bufSet_subarray_lower _ _ _ _ _ (by norm_num) (by rw [l8]; norm_num),
      hb8, bufSet_subarray_lower _ _ _ _ _ (by norm_num) (by rw [l7]; norm_num),
      hb7, bufSet_subarray_lower _ _ _ _ _ (by norm_num) (by rw [l6]; norm_num),
      hb6, bufSet_subarray_lower _ _ _ _ _ (by norm_num) (by rw [l5]; norm_num),
      hb5, bufSet_subarray_lower _ _ _ _ _ (by norm_num) (by rw [l4]; norm_num),
      hb4, bufSet_subarray_lower _ _ _ _ _ (by norm_num) (by rw [l3]; norm_num),
      hb3, bufSet_subarray_lower _ _ _ _ _ (by norm_num) (by rw [l2]; norm_num),
      hb2, bufSet_subarray_lower _ _ _ _ _ (by norm_num) (by rw [l1]; norm_num),
      hb1, bufSet_subarray_at' _ _ _ _ (by rw [l0]; norm_num)
        (by simp [length_encBigInt64LE])]
  have fend : subarray (bufFill0 b9 142) 24 32 = encBigInt64LE r.endPos := by
    rw [bufFill0_subarray_lower _ _ _ _ (by norm_num) (by rw [l9]; norm_num),
      hb9, bufSet_subarray_lower _ _ _ _ _ (by norm_num) (by rw [l8]; norm_num),
      hb8, bufSet_subarray_lower _ _ _ _ _ (by norm_num) (by rw [l7]; norm_num),
      hb7, bufSet_subarray_lower _ _ _ _ _ (by norm_num) (by rw [l6]; norm_num),
      hb6, bufSet_subarray_lower _ _ _ _ _ (by norm_num) (by rw [l5]; norm_num),
      hb5, bufSet_subarray_lower _ _ _ _ _ (by norm_num) (by rw [l4]; norm_num),
      hb4, bufSet_subarray_lower _ _ _ _ _ (by norm_num) (by rw [l3]; norm_num),
      hb3, bufSet_subarray_lower _ _ _ _ _ (by norm_num) (by rw [l2]; norm_num),
      hb2, bufSet_subarray_at' _ _ _ _ (by rw [l1]; norm_num)
        (by simp [length_encBigInt64LE])]
  have fkey : subarray (bufFill0 b9 142) 32 64 = r.key := by
    rw [bufFill0_subarray_lower _ _ _ _ (by norm_num) (by rw [l9]; norm_num),
      hb9, bufSet_subarray_lower _ _ _ _ _ (by norm_num) (by rw [l8]; norm_num),
      hb8, bufSet_subarray_lower _ _ _ _ _ (by norm_num) (by rw [l7]; norm_num),
      hb7, bufSet_subarray_lower _ _ _ _ _ (by norm_num) (by rw [l6]; norm_num),
      hb6, bufSet_subarray_lower _ _ _ _ _ (by norm_num) (by rw [l5]; norm_num),
      hb5, bufSet_subarray_lower _ _ _ _ _ (by norm_num) (by rw [l4]; norm_num),
      hb4, bufSet_subarray_lower _ _ _ _ _ (by norm_num) (by rw [l3]; norm_num),
      hb3, bufSet_subarray_at' _ _ _ _ (by rw [l2]; norm_num) (by simp [hk])]
  have fiv : subarray (bufFill0 b9 142) 64 80 = r.iv := by
    rw [bufFill0_subarray_lower _ _ _ _ (by norm_num) (by rw [l9]; norm_num),
      hb9, bufSet_subarray_lower _ _ _ _ _ (by norm_num) (by rw [l8]; norm_num),
      hb8, bufSet_subarray_lower _ _ _ _ _ (by norm_num) (by rw [l7]; norm_num),
      hb7, bufSet_subarray_lower _ _ _ _ _ (by norm_num) (by rw [l6]; norm_num),
      hb6, bufSet_subarray_lower _ _ _ _ _ (by norm_num) (by rw [l5]; norm_num),
      hb5, bufSet_subarray_lower _ _ _ _ _ (by norm_num) (by rw [l4]; norm_num),
      hb4, bufSet_subarray_at' _ _ _ _ (by rw [l3]; norm_num) (by simp [hiv])]
  have fcrc : subarray (bufFill0 b9 142) 80 84 = r.crc := by
    rw [bufFill0_subarray_lower _ _ _ _ (by norm_num) (by rw [l9]; norm_num),
      hb9, bufSet_subarray_lower _ _ _ _ _ (by norm_num) (by rw [l8]; norm_num),
      hb8, bufSet_subarray_lower _ _ _ _ _ (by norm_num) (by rw [l7]; norm_num),
      hb7, bufSet_subarray_lower _ _ _ _ _ (by norm_num) (by rw [l6]; norm_num),
      hb6, bufSet_subarray_lower _ _ _ _ _ (by norm_num) (by rw [l5]; norm_num),
      hb5, bufSet_subarray_at' _ _ _ _ (by rw [l4]; norm_num) (by simp [hc])]
  have fmd5 : subarray (bufFill0 b9 142) 84 100 = r.md5 := by
    rw [bufFill0_subarray_lower _ _ _ _ (by norm_num) (by rw [l9]; norm_num),
      hb9, bufSet_subarray_lower _ _ _ _ _ (by norm_num) (by rw [l8]; norm_num),
      hb8, bufSet_subarray_lower _ _ _ _ _ (by norm_num) (by rw [l7]; norm_num),
      hb7, bufSet_subarray_lower _ _ _ _ _ (by norm_num) (by rw [l6]; norm_num),
      hb6, bufSet_subarray_at' _ _ _ _ (by rw [l5]; norm_num) (by simp [hm])]
  have fsha : subarray (bufFill0 b9 142) 100 132 = r.sha := by
    rw [bufFill0_subarray_lower _ _ _ _ (by norm_num) (by rw [l9]; norm_num),
      hb9, bufSet_subarray_lower _ _ _ _ _ (by norm_num) (by rw [l8]; norm_num),
      hb8, bufSet_subarray_lower _ _ _ _ _ (by norm_num) (by rw [l7]; norm_num),
      hb7, bufSet_subarray_at' _ _ _ _ (by rw [l6]; norm_num) (by simp [hs])]
  have fctime : subarray (bufFill0 b9 142) 132 140 =
      encBigInt64LE r.ctime := by
    rw [bufFill0_subarray_lower _ _ _ _ (by norm_num) (by rw [l9]; norm_num),
      hb9, bufSet_subarray_lower _ _ _ _ _ (by norm_num) (by rw [l8]; norm_num),
      hb8, bufSet_subarray_at' _ _ _ _ (by rw [l7]; norm_num)
        (by simp [length_encBigInt64LE])]
  have fflags : subarray (bufFill0 b9 142) 140 142 =
      encUInt16LE r.flags := by
    rw [bufFill0_subarray_lower _ _ _ _ (by norm_num) (by rw [l9]; norm_num),
      hb9, bufSet_subarray_at' _ _ _ _ (by rw [l8]; norm_num)
        (by simp [length_encUInt16LE])]
  unfold Filerecord.FileRecord.fromBinary Filerecord.FileRecord.make
  rw [fuuid, fstart, fend, fkey, fiv, fcrc, fmd5, fsha, fctime, fflags]
  rw [decBigInt64LE_encBigInt64LE r.start hs1 (by omega),
    decBigInt64LE_encBigInt64LE r.endPos (by omega) hs2,
    decBigInt64LE_encBigInt64LE r.ctime hc1 hc2,
    leDecode_encUInt16LE r.flags hf]
  rw [if_neg (by omega), if_neg (by simp [hiv])]

/-- Witness for C7 on a concrete record and a concrete garbage buffer. -/
theorem record_roundtrip_witness :
    (List.replicate 256 7 : List Nat).length = 256
    ∧ Filerecord.FileRecord.WF ⟨List.replicate 16 1, 520, 536,
        List.replicate 32 2, List.replicate 16 3, List.replicate 4 4,
        List.replicate 16 5, List.replicate 32 6, 1000, 2⟩
    ∧ Filerecord.FileRecord.fromBinary
        (Filerecord.FileRecord.toBinary (List.replicate 256 7)
          ⟨List.replicate 16 1, 520, 536, List.replicate 32 2,
            List.replicate 16 3, List.replicate 4 4, List.replicate 16 5,
            List.replicate 32 6, 1000, 2⟩) =
      .ok ⟨List.replicate 16 1, 520, 536, List.replicate 32 2,
        List.replicate 16 3, List.replicate 4 4, List.replicate 16 5,
        List.replicate 32 6, 1000, 2⟩ := by
  refine ⟨by decide, by decide, ?_⟩
  exact record_roundtrip (List.replicate 256 7)
    ⟨List.replicate 16 1, 520, 536, List.replicate 32 2,
      List.replicate 16 3, List.replicate 4 4, List.replicate 16 5,
      List.replicate 32 6, 1000, 2⟩
    (by decide) (by decide) (by decide) (by decide) (by decide) (by decide)
    (by decide) (by decide)

open Bulk in
/-- C1 (code bug), evaluated at the failing input. Starting from a freshly
created storage (tocStart 520, 536-byte file), `add P1 = [1]` stores record
u1 at `[520, 536)` and `add P2 = [2]` stores record u2 at `[536, 552)`.
`get(u1)` then hands `record.end` to the inclusive-end `fs.createReadStream`
(no `end − 1`), so the reader yields 17 bytes — u1's ciphertext plus the
first byte of u2's — the CBC decryptor fails on `final`, and the returned
stream errors instead of yielding `P1`. For the tail record u2 the overread
is clamped by the end of file, so `get(u2)` still round-trips, which is why
the repository's own tests (which only ever `get` the tail) pass. -/
theorem get_after_second_add_fails :
    (BulkStorage.get toyCipher
      ((BulkStorage.add toyCipher
        ((BulkStorage.add toyCipher
            ⟨⟨List.replicate 32 0, List.replicate 16 0, 520⟩, [],
              List.replicate 536 0, 3⟩
            [1] (List.replicate 16 1) (List.replicate 16 3) none).1)
        [2] (List.replicate 16 2) (List.replicate 16 4) none).1)
      (List.replicate 16 1)) = .ok .streamError
    ∧ (BulkStorage.get toyCipher
      ((BulkStorage.add toyCipher
        ((BulkStorage.add toyCipher
            ⟨⟨List.replicate 32 0, List.replicate 16 0, 520⟩, [],
              List.replicate 536 0, 3⟩
            [1] (List.replicate 16 1) (List.replicate 16 3) none).1)
        [2] (List.replicate 16 2) (List.replicate 16 4) none).1)
      (List.replicate 16 2)) = .ok (.bytes [2]) := by
  exact ⟨by decide, by decide⟩

open Bulk in
/-- C2 (code bug), evaluated at the failing input. For the live record
`{start: 520, end: 536}` in a 552-byte file, the reader `get` creates —
`fs.createReadStream` with the inclusive `end` passed unchanged — reads 17
bytes instead of the `end − start = 16` bytes of `[520, 536)` that the claim
requires; `FileInterface.readStream` of `io.js`, which does pass `end − 1`
to the same primitive, reads exactly those 16 bytes. -/
theorem range_reader_overreads :
    (createReadStreamRange (List.replicate 552 0) 520 536).length = 17
    ∧ (createReadStreamRange (List.replicate 552 0) 520 536).length ≠ 536 - 520
    ∧ FileInterface.readStream (List.replicate 552 0) 520 536 =
        subarray (List.replicate 552 0) 520 536
    ∧ (FileInterface.readStream (List.replicate 552 0) 520 536).length =
        536 - 520 := by
  exact ⟨by decide, by decide, by decide, by decide⟩

end BulkSpec
